import Mathlib

/-!
Shallow embedding of `src/mass_transit_billing.py` (class
`MassTransitBillingSystem`) and verification of its specification.

Modelling conventions:
* Money is exact arithmetic over `ℚ`; the Python builtin `round(x, 2)`
  (round half to even at two decimal places) is modelled by `round2`.
* A calendar date (`datetime.date`) is modelled by its day number `ℤ`
  (calendar dates are totally ordered, and the fare engine only ever
  compares dates); a `datetime` carries its date plus a time-of-day
  component that the fare engine never inspects.
* The Python `dict` of station zones is modelled as an association list
  with assignment semantics (`dictInsert`).
* Raising an exception is modelled by `Option` (`none` = the function
  raises and the run aborts).
-/

namespace MassTransit

/-- The rounding used by the Python builtin `round(x, 2)`: the integer
number of hundredths nearest to `y = x * 100`, ties going to the even
integer (round half to even). -/
def roundHalfEven (y : ℚ) : ℤ :=
  if y - ⌊y⌋ < 1/2 then ⌊y⌋
  else if 1/2 < y - ⌊y⌋ then ⌊y⌋ + 1
  else if 2 ∣ ⌊y⌋ then ⌊y⌋ else ⌊y⌋ + 1

/-- Python `round(x, 2)`: round `x` to two decimal places, half to even. -/
def round2 (x : ℚ) : ℚ := (roundHalfEven (x * 100) : ℚ) / 100

/-- Python static method `get_additional_zone_cost` (lines 37-57).
The `isinstance` check is subsumed by the type `ℤ`; `none` models both the
`ValueError` raised for `zone <= 0` and the implicit `None` fall-through
after the final `if` (which the tier proofs show is unreachable). -/
def get_additional_zone_cost (zone : ℤ) : Option ℚ :=
  if zone ≤ 0 then none            -- raise ValueError (zone must be >= 1)
  else if zone = 1 then some 0.80
  else if 2 ≤ zone ∧ zone ≤ 3 then some 0.50
  else if 4 ≤ zone ∧ zone ≤ 5 then some 0.30
  else if 6 ≤ zone then some 0.10
  else none                        -- implicit fall-through returning None

/-- A `datetime` as used by the fare engine: `timestamp.date()` is the
`day` field (a day number, since dates are totally ordered), and `sec` is
the time of day, which the engine never inspects. -/
structure Timestamp where
  day : ℤ
  sec : ℕ
deriving DecidableEq

/-- One parsed journey record `(zone, direction, timestamp)` as stored in
`journeys_per_user` (line 84-86). -/
structure Journey where
  zone : ℤ
  direction : String
  timestamp : Timestamp
deriving DecidableEq

/-- The per-user loop state of `calculate_billing_amounts_per_user`
(lines 96-102): the pending-entry stack `daily_journeys` (a Python list:
push = append at the end, pop = pop from the end), the two running totals
and the current day. -/
structure BillingState where
  daily_journeys : List ℤ
  daily_total : ℚ
  monthly_total : ℚ
  cur_day : ℤ
deriving DecidableEq

/-- The `IN`/`OUT` dispatch of the loop body (lines 105-122).  An `OUT`
with an empty stack adds the flat £5 missing fee; an `OUT` with a
non-empty stack pops the entry zone and adds the rounded journey cost;
any other direction leaves the state unchanged. -/
def stepFare (s : BillingState) (j : Journey) : Option BillingState :=
  if j.direction = "IN" then
    some { s with daily_journeys := s.daily_journeys ++ [j.zone] }
  else if j.direction = "OUT" then
    match s.daily_journeys.getLast? with
    | none => some { s with daily_total := s.daily_total + 5.00 }
    | some entry_zone => do
        let c₁ ← get_additional_zone_cost entry_zone
        let c₂ ← get_additional_zone_cost j.zone
        some { s with
                daily_journeys := s.daily_journeys.dropLast,
                daily_total := s.daily_total + round2 (2.0 + c₁ + c₂) }
  else
    some s

/-- The day-boundary check at the end of the loop body (lines 126-129):
if the date of the event is strictly later than `cur_day`, fold the
capped daily total into the monthly total and reset it. -/
def rollover (s : BillingState) (j : Journey) : BillingState :=
  if s.cur_day < j.timestamp.day then
    { s with cur_day := j.timestamp.day,
             monthly_total := s.monthly_total + min 15.00 s.daily_total,
             daily_total := 0.00 }
  else s

/-- One full iteration of the loop body (lines 104-129). -/
def processJourney (s : BillingState) (j : Journey) : Option BillingState :=
  (stepFare s j).map (fun s₁ => rollover s₁ j)

/-- The daily total after the post-loop missing-fee charge for entries
never exited (lines 133-134). -/
def finalDailyTotal (s : BillingState) : ℚ :=
  if s.daily_journeys ≠ [] then
    s.daily_total + round2 (5.00 * s.daily_journeys.length)
  else s.daily_total

/-- The final flush and monthly cap (lines 135-138). -/
def finishUser (s : BillingState) : ℚ :=
  min 100.00 (s.monthly_total + round2 (min 15.00 (finalDailyTotal s)))

/-- The loop-state initialisation (lines 96-102); `journeys[0]` fixes the
initial `cur_day`. -/
def initState (j₀ : Journey) : BillingState :=
  { daily_journeys := [], daily_total := 0.00, monthly_total := 0.00,
    cur_day := j₀.timestamp.day }

/-- The whole per-user body of `calculate_billing_amounts_per_user`
(lines 96-138): for an empty journey list `journeys[0]` raises
(`none`); otherwise fold the loop body over the journeys and finish. -/
def calculate_bill (journeys : List Journey) : Option ℚ :=
  match journeys with
  | [] => none
  | j₀ :: _ => (journeys.foldlM processJourney (initState j₀)).map finishUser

/-! ### Basic facts about the pricing function and rounding -/

/-- Predicate: `q` is an exact number of hundredths (pennies). -/
def isCents (q : ℚ) : Prop := ∃ n : ℤ, q = (n : ℚ) / 100

theorem round2_cents (n : ℤ) : round2 ((n : ℚ) / 100) = (n : ℚ) / 100 := by
  have hy : ((n : ℚ) / 100) * 100 = (n : ℚ) := by
    field_simp
  unfold round2 roundHalfEven
  rw [hy, Int.floor_intCast]
  norm_num

theorem round2_fix {q : ℚ} (h : isCents q) : round2 q = q := by
  obtain ⟨n, rfl⟩ := h
  exact round2_cents n

theorem isCents_round2 (x : ℚ) : isCents (round2 x) :=
  ⟨roundHalfEven (x * 100), rfl⟩

theorem isCents_add {a b : ℚ} (ha : isCents a) (hb : isCents b) :
    isCents (a + b) := by
  obtain ⟨n, rfl⟩ := ha
  obtain ⟨m, rfl⟩ := hb
  exact ⟨n + m, by push_cast; ring⟩

theorem isCents_zero : isCents 0 := ⟨0, by norm_num⟩

theorem isCents_five : isCents 5.00 := ⟨500, by norm_num⟩

theorem isCents_min15 {q : ℚ} (h : isCents q) : isCents (min 15.00 q) := by
  rcases le_total (15.00 : ℚ) q with h₁ | h₁
  · rw [min_eq_left h₁]
    exact ⟨1500, by norm_num⟩
  · rw [min_eq_right h₁]
    exact h

/-- Every defined value of the pricing function is one of the four tier
costs (no other value is ever returned). -/
theorem gaz_values {z : ℤ} {c : ℚ} (h : get_additional_zone_cost z = some c) :
    c = 0.80 ∨ c = 0.50 ∨ c = 0.30 ∨ c = 0.10 := by
  unfold get_additional_zone_cost at h
  split_ifs at h <;> simp_all

/-- For every zone `z ≥ 1` the pricing function is defined and returns a
tier cost. -/
theorem gaz_total {z : ℤ} (hz : 1 ≤ z) :
    get_additional_zone_cost z = some 0.80 ∨
    get_additional_zone_cost z = some 0.50 ∨
    get_additional_zone_cost z = some 0.30 ∨
    get_additional_zone_cost z = some 0.10 := by
  unfold get_additional_zone_cost
  split_ifs with h₀ h₁ h₂ h₃ h₄
  · omega
  · exact Or.inl rfl
  · exact Or.inr (Or.inl rfl)
  · exact Or.inr (Or.inr (Or.inl rfl))
  · exact Or.inr (Or.inr (Or.inr rfl))
  · omega

theorem gaz_isSome {z : ℤ} (hz : 1 ≤ z) :
    ∃ c, get_additional_zone_cost z = some c := by
  rcases gaz_total hz with h | h | h | h <;> exact ⟨_, h⟩

/-- Numeric facts about any returned tier cost. -/
theorem gaz_props {z : ℤ} {c : ℚ} (h : get_additional_zone_cost z = some c) :
    isCents c ∧ 0.10 ≤ c ∧ c ≤ 0.80 := by
  rcases gaz_values h with rfl | rfl | rfl | rfl
  · exact ⟨⟨80, by norm_num⟩, by norm_num, by norm_num⟩
  · exact ⟨⟨50, by norm_num⟩, by norm_num, by norm_num⟩
  · exact ⟨⟨30, by norm_num⟩, by norm_num, by norm_num⟩
  · exact ⟨⟨10, by norm_num⟩, by norm_num, by norm_num⟩

/-! ### Equations for the branches of the loop body -/

theorem stepFare_in (s : BillingState) {j : Journey}
    (hd : j.direction = "IN") :
    stepFare s j =
      some { s with daily_journeys := s.daily_journeys ++ [j.zone] } := by
  unfold stepFare
  rw [hd, if_pos rfl]

theorem stepFare_out_empty (s : BillingState) {j : Journey}
    (hd : j.direction = "OUT") (hg : s.daily_journeys.getLast? = none) :
    stepFare s j = some { s with daily_total := s.daily_total + 5.00 } := by
  unfold stepFare
  rw [hd, if_neg (by decide), if_pos rfl, hg]

theorem stepFare_out_pop (s : BillingState) {j : Journey} {e : ℤ} {c₁ c₂ : ℚ}
    (hd : j.direction = "OUT") (hg : s.daily_journeys.getLast? = some e)
    (hc₁ : get_additional_zone_cost e = some c₁)
    (hc₂ : get_additional_zone_cost j.zone = some c₂) :
    stepFare s j =
      some { s with daily_journeys := s.daily_journeys.dropLast,
                    daily_total := s.daily_total + round2 (2.0 + c₁ + c₂) } := by
  unfold stepFare
  rw [hd, if_neg (by decide), if_pos rfl, hg]
  show ((get_additional_zone_cost e).bind fun c₁ =>
    (get_additional_zone_cost j.zone).bind fun c₂ =>
    some { s with daily_journeys := s.daily_journeys.dropLast,
                  daily_total := s.daily_total + round2 (2.0 + c₁ + c₂) }) = _
  rw [hc₁, hc₂]
  rfl

theorem stepFare_out_err₁ (s : BillingState) {j : Journey} {e : ℤ}
    (hd : j.direction = "OUT") (hg : s.daily_journeys.getLast? = some e)
    (hc₁ : get_additional_zone_cost e = none) :
    stepFare s j = none := by
  unfold stepFare
  rw [hd, if_neg (by decide), if_pos rfl, hg]
  show ((get_additional_zone_cost e).bind fun c₁ =>
    (get_additional_zone_cost j.zone).bind fun c₂ =>
    some { s with daily_journeys := s.daily_journeys.dropLast,
                  daily_total := s.daily_total + round2 (2.0 + c₁ + c₂) }) = _
  rw [hc₁]
  rfl

theorem stepFare_out_err₂ (s : BillingState) {j : Journey} {e : ℤ} {c₁ : ℚ}
    (hd : j.direction = "OUT") (hg : s.daily_journeys.getLast? = some e)
    (hc₁ : get_additional_zone_cost e = some c₁)
    (hc₂ : get_additional_zone_cost j.zone = none) :
    stepFare s j = none := by
  unfold stepFare
  rw [hd, if_neg (by decide), if_pos rfl, hg]
  show ((get_additional_zone_cost e).bind fun c₁ =>
    (get_additional_zone_cost j.zone).bind fun c₂ =>
    some { s with daily_journeys := s.daily_journeys.dropLast,
                  daily_total := s.daily_total + round2 (2.0 + c₁ + c₂) }) = _
  rw [hc₁, hc₂]
  rfl

theorem stepFare_skip (s : BillingState) {j : Journey}
    (hd₁ : j.direction ≠ "IN") (hd₂ : j.direction ≠ "OUT") :
    stepFare s j = some s := by
  unfold stepFare
  rw [if_neg hd₁, if_neg hd₂]

theorem rollover_lt {s : BillingState} {j : Journey}
    (h : s.cur_day < j.timestamp.day) :
    rollover s j =
      { s with cur_day := j.timestamp.day,
               monthly_total := s.monthly_total + min 15.00 s.daily_total,
               daily_total := 0.00 } := by
  unfold rollover
  rw [if_pos h]

theorem rollover_ge {s : BillingState} {j : Journey}
    (h : ¬ s.cur_day < j.timestamp.day) : rollover s j = s := by
  unfold rollover
  rw [if_neg h]

theorem processJourney_eq (s : BillingState) (j : Journey) {s₁ : BillingState}
    (h : stepFare s j = some s₁) :
    processJourney s j = some (rollover s₁ j) := by
  unfold processJourney
  rw [h]
  rfl

/-! ### Case analysis of the loop body -/

theorem stepFare_cases {s s' : BillingState} {j : Journey}
    (h : stepFare s j = some s') :
    (j.direction = "IN" ∧
      s' = { s with daily_journeys := s.daily_journeys ++ [j.zone] }) ∨
    (j.direction = "OUT" ∧ s.daily_journeys.getLast? = none ∧
      s' = { s with daily_total := s.daily_total + 5.00 }) ∨
    (j.direction = "OUT" ∧ ∃ e c₁ c₂,
      s.daily_journeys.getLast? = some e ∧
      get_additional_zone_cost e = some c₁ ∧
      get_additional_zone_cost j.zone = some c₂ ∧
      s' = { s with daily_journeys := s.daily_journeys.dropLast,
                    daily_total := s.daily_total + round2 (2.0 + c₁ + c₂) }) ∨
    (j.direction ≠ "IN" ∧ j.direction ≠ "OUT" ∧ s' = s) := by
  by_cases h₁ : j.direction = "IN"
  · rw [stepFare_in s h₁] at h
    exact Or.inl ⟨h₁, by injection h with h; exact h.symm⟩
  by_cases h₂ : j.direction = "OUT"
  · rcases hg : s.daily_journeys.getLast? with _ | e
    · rw [stepFare_out_empty s h₂ hg] at h
      exact Or.inr (Or.inl ⟨h₂, rfl, by injection h with h; exact h.symm⟩)
    · rcases hc₁ : get_additional_zone_cost e with _ | c₁
      · rw [stepFare_out_err₁ s h₂ hg hc₁] at h
        exact absurd h (by simp)
      · rcases hc₂ : get_additional_zone_cost j.zone with _ | c₂
        · rw [stepFare_out_err₂ s h₂ hg hc₁ hc₂] at h
          exact absurd h (by simp)
        · rw [stepFare_out_pop s h₂ hg hc₁ hc₂] at h
          refine Or.inr (Or.inr (Or.inl ⟨h₂, e, c₁, c₂, ?_, ?_, ?_,
            by injection h with h; exact h.symm⟩))
          · rfl
          · exact hc₁
          · rfl
  · rw [stepFare_skip s h₁ h₂] at h
    exact Or.inr (Or.inr (Or.inr ⟨h₁, h₂, by injection h with h; exact h.symm⟩))

theorem rollover_daily_journeys (s : BillingState) (j : Journey) :
    (rollover s j).daily_journeys = s.daily_journeys := by
  unfold rollover
  split_ifs <;> rfl

/-! ### Invariants of the loop state -/

/-- Running-total invariant: the daily total is an exact number of
hundredths and both totals are non-negative. -/
def Inv (s : BillingState) : Prop :=
  isCents s.daily_total ∧ 0 ≤ s.daily_total ∧ 0 ≤ s.monthly_total

/-- Every zone on the pending-entry stack is a valid zone. -/
def StackOK (s : BillingState) : Prop := ∀ z ∈ s.daily_journeys, 1 ≤ z

theorem journey_cost_props {z₁ z₂ : ℤ} {c₁ c₂ : ℚ}
    (h₁ : get_additional_zone_cost z₁ = some c₁)
    (h₂ : get_additional_zone_cost z₂ = some c₂) :
    round2 (2.0 + c₁ + c₂) = 2.0 + c₁ + c₂ ∧
    isCents (2.0 + c₁ + c₂) ∧
    (2.2 : ℚ) ≤ 2.0 + c₁ + c₂ ∧ 2.0 + c₁ + c₂ ≤ 3.6 := by
  obtain ⟨hc₁, hlo₁, hhi₁⟩ := gaz_props h₁
  obtain ⟨hc₂, hlo₂, hhi₂⟩ := gaz_props h₂
  have hcents : isCents (2.0 + c₁ + c₂) :=
    isCents_add (isCents_add ⟨200, by norm_num⟩ hc₁) hc₂
  refine ⟨round2_fix hcents, hcents, ?_, ?_⟩
  · calc (2.2 : ℚ) = 2.0 + 0.10 + 0.10 := by norm_num
    _ ≤ 2.0 + c₁ + c₂ := by gcongr
  · calc 2.0 + c₁ + c₂ ≤ 2.0 + 0.80 + 0.80 := by gcongr
    _ = 3.6 := by norm_num

theorem stepFare_inv {s s' : BillingState} {j : Journey}
    (h : stepFare s j = some s') (hs : Inv s) :
    Inv s' ∧ s.daily_total ≤ s'.daily_total ∧
    s'.monthly_total = s.monthly_total := by
  obtain ⟨hc, hd, hm⟩ := hs
  rcases stepFare_cases h with ⟨_, rfl⟩ | ⟨_, _, rfl⟩ |
    ⟨_, e, c₁, c₂, _, hc₁, hc₂, rfl⟩ | ⟨_, _, rfl⟩
  · exact ⟨⟨hc, hd, hm⟩, le_refl _, rfl⟩
  · refine ⟨⟨isCents_add hc isCents_five, by positivity, hm⟩, ?_, rfl⟩
    have : (0 : ℚ) ≤ 5.00 := by norm_num
    linarith
  · obtain ⟨hfix, hcents, hlo, _⟩ := journey_cost_props hc₁ hc₂
    rw [hfix]
    have h0 : (0 : ℚ) ≤ 2.0 + c₁ + c₂ := by linarith
    exact ⟨⟨isCents_add hc (hfix ▸ isCents_round2 _), by positivity, hm⟩,
      by linarith, rfl⟩
  · exact ⟨⟨hc, hd, hm⟩, le_refl _, rfl⟩

theorem rollover_inv {s : BillingState} (j : Journey) (hs : Inv s) :
    Inv (rollover s j) ∧ s.monthly_total ≤ (rollover s j).monthly_total := by
  obtain ⟨hc, hd, hm⟩ := hs
  unfold rollover
  split_ifs
  · have h₁ : (0 : ℚ) ≤ min 15.00 s.daily_total :=
      le_min (by norm_num) hd
    refine ⟨⟨?_, ?_, ?_⟩, ?_⟩
    · show isCents (0.00 : ℚ)
      exact ⟨0, by norm_num⟩
    · show (0 : ℚ) ≤ 0.00
      norm_num
    · show (0 : ℚ) ≤ s.monthly_total + min 15.00 s.daily_total
      linarith
    · show s.monthly_total ≤ s.monthly_total + min 15.00 s.daily_total
      linarith
  · exact ⟨⟨hc, hd, hm⟩, le_refl _⟩

theorem processJourney_inv {s s' : BillingState} {j : Journey}
    (h : processJourney s j = some s') (hs : Inv s) :
    Inv s' ∧ s.monthly_total ≤ s'.monthly_total := by
  unfold processJourney at h
  rcases hf : stepFare s j with _ | s₁ <;> rw [hf] at h
  · exact absurd h (by simp)
  · have h' : rollover s₁ j = s' := by
      simpa using h
    obtain ⟨hinv₁, _, hmono₁⟩ := stepFare_inv hf hs
    obtain ⟨hinv₂, hmono₂⟩ := rollover_inv j hinv₁
    exact ⟨h' ▸ hinv₂, h' ▸ (hmono₁ ▸ hmono₂)⟩

theorem stepFare_total {s : BillingState} {j : Journey}
    (hz : 1 ≤ j.zone) (hs : StackOK s) :
    ∃ s', stepFare s j = some s' ∧ StackOK s' := by
  by_cases h₁ : j.direction = "IN"
  · refine ⟨_, stepFare_in s h₁, fun z hzmem => ?_⟩
    rcases List.mem_append.mp hzmem with h | h
    · exact hs z h
    · rw [List.mem_singleton.mp h]
      exact hz
  by_cases h₂ : j.direction = "OUT"
  · rcases hg : s.daily_journeys.getLast? with _ | e
    · exact ⟨_, stepFare_out_empty s h₂ hg, hs⟩
    · have he : e ∈ s.daily_journeys := by
        rcases List.getLast?_eq_some_iff.mp hg with ⟨l, hl⟩
        rw [hl]
        exact List.mem_concat_self l e
      obtain ⟨c₁, hc₁⟩ := gaz_isSome (hs e he)
      obtain ⟨c₂, hc₂⟩ := gaz_isSome hz
      exact ⟨_, stepFare_out_pop s h₂ hg hc₁ hc₂,
        fun z hzmem => hs z (List.dropLast_subset _ hzmem)⟩
  · exact ⟨_, stepFare_skip s h₁ h₂, hs⟩

theorem processJourney_total {s : BillingState} {j : Journey}
    (hz : 1 ≤ j.zone) (hs : StackOK s) :
    ∃ s', processJourney s j = some s' ∧ StackOK s' := by
  obtain ⟨s₁, h₁, hok⟩ := stepFare_total hz hs
  refine ⟨rollover s₁ j, ?_, ?_⟩
  · unfold processJourney
    rw [h₁]
    rfl
  · rw [StackOK, rollover_daily_journeys]
    exact hok

/-! ### Folding the loop -/

theorem foldlM_pres {P : BillingState → Prop}
    (hP : ∀ s j s', P s → processJourney s j = some s' → P s') :
    ∀ (js : List Journey) (s s' : BillingState), P s →
      js.foldlM processJourney s = some s' → P s' := by
  intro js
  induction js with
  | nil =>
    intro s s' h hfold
    simp only [List.foldlM_nil] at hfold
    cases hfold
    exact h
  | cons j rest ih =>
    intro s s' h hfold
    rw [List.foldlM_cons] at hfold
    rcases hm : processJourney s j with _ | s₁ <;>
      rw [hm] at hfold
    · simp at hfold
    · exact ih s₁ s' (hP s j s₁ h hm) hfold

theorem foldlM_total :
    ∀ (js : List Journey) (s : BillingState), (∀ j ∈ js, 1 ≤ j.zone) →
      StackOK s → ∃ s', js.foldlM processJourney s = some s' ∧ StackOK s' := by
  intro js
  induction js with
  | nil =>
    intro s _ hs
    exact ⟨s, by simp [List.foldlM_nil], hs⟩
  | cons j rest ih =>
    intro s hz hs
    obtain ⟨s₁, h₁, hok₁⟩ :=
      processJourney_total (hz j (List.mem_cons_self j rest)) hs
    obtain ⟨s', h', hok'⟩ :=
      ih s₁ (fun j' hj' => hz j' (List.mem_cons_of_mem j hj')) hok₁
    refine ⟨s', ?_, hok'⟩
    rw [List.foldlM_cons, h₁]
    exact h'

/-! ### Claims about the pricing function -/

/-- C6: for every integer zone `z ≥ 1`, `get_additional_zone_cost z` is
defined and returns exactly one of {0.80, 0.50, 0.30, 0.10} according to
the tiers (zone 1 → 0.80, zones 2-3 → 0.50, zones 4-5 → 0.30,
zone ≥ 6 → 0.10); the function is total over this valid domain and the
no-tier fall-through (`none` after all branches) is unreachable. -/
theorem claim_C6_zone_cost_total (z : ℤ) (hz : 1 ≤ z) :
    (∃ c, get_additional_zone_cost z = some c ∧
      (c = 0.80 ∨ c = 0.50 ∨ c = 0.30 ∨ c = 0.10)) ∧
    (z = 1 → get_additional_zone_cost z = some 0.80) ∧
    (2 ≤ z ∧ z ≤ 3 → get_additional_zone_cost z = some 0.50) ∧
    (4 ≤ z ∧ z ≤ 5 → get_additional_zone_cost z = some 0.30) ∧
    (6 ≤ z → get_additional_zone_cost z = some 0.10) := by
  refine ⟨?_, ?_, ?_, ?_, ?_⟩
  · rcases gaz_total hz with h | h | h | h
    · exact ⟨_, h, Or.inl rfl⟩
    · exact ⟨_, h, Or.inr (Or.inl rfl)⟩
    · exact ⟨_, h, Or.inr (Or.inr (Or.inl rfl))⟩
    · exact ⟨_, h, Or.inr (Or.inr (Or.inr rfl))⟩
  all_goals intro h
  all_goals unfold get_additional_zone_cost
  all_goals split_ifs <;> first | rfl | omega

theorem claim_C6_witness :
    (1 ≤ (7 : ℤ)) ∧
    ((∃ c, get_additional_zone_cost 7 = some c ∧
      (c = 0.80 ∨ c = 0.50 ∨ c = 0.30 ∨ c = 0.10)) ∧
    ((7 : ℤ) = 1 → get_additional_zone_cost 7 = some 0.80) ∧
    (2 ≤ (7 : ℤ) ∧ (7 : ℤ) ≤ 3 → get_additional_zone_cost 7 = some 0.50) ∧
    (4 ≤ (7 : ℤ) ∧ (7 : ℤ) ≤ 5 → get_additional_zone_cost 7 = some 0.30) ∧
    (6 ≤ (7 : ℤ) → get_additional_zone_cost 7 = some 0.10)) :=
  ⟨by norm_num, claim_C6_zone_cost_total 7 (by norm_num)⟩

/-- C7: the pricing function is monotonically non-increasing over its
valid domain: for `1 ≤ z₁ ≤ z₂`, the returned cost for `z₂` is at most
the returned cost for `z₁`. -/
theorem claim_C7_zone_cost_antitone (z₁ z₂ : ℤ) (h₁ : 1 ≤ z₁)
    (h₁₂ : z₁ ≤ z₂) (c₁ c₂ : ℚ)
    (hc₁ : get_additional_zone_cost z₁ = some c₁)
    (hc₂ : get_additional_zone_cost z₂ = some c₂) : c₂ ≤ c₁ := by
  unfold get_additional_zone_cost at hc₁ hc₂
  split_ifs at hc₁ hc₂ <;> simp_all <;> (try subst hc₁) <;> (try subst hc₂) <;>
    first | omega | norm_num

theorem claim_C7_witness :
    (1 ≤ (2 : ℤ)) ∧ ((2 : ℤ) ≤ 6) ∧
    get_additional_zone_cost 2 = some 0.50 ∧
    get_additional_zone_cost 6 = some 0.10 ∧ (0.10 : ℚ) ≤ 0.50 := by
  have e₂ : get_additional_zone_cost 2 = some 0.50 := by
    norm_num [get_additional_zone_cost]
  have e₆ : get_additional_zone_cost 6 = some 0.10 := by
    norm_num [get_additional_zone_cost]
  exact ⟨by norm_num, by norm_num, e₂, e₆,
    claim_C7_zone_cost_antitone 2 6 (by norm_num) (by norm_num) _ _ e₂ e₆⟩

/-! ### Claims about the missing-tap penalties -/

/-- C3: an `OUT` event processed while the pending-entry stack is empty
adds exactly 5.00 to the daily total (and changes nothing else in the
fare dispatch), and after the loop each zone still on the stack adds
exactly 5.00 to the final daily total (5.00 times the count remaining,
the rounding to 2 decimals being exact). -/
theorem claim_C3_missing_tap_fee :
    (∀ (s : BillingState) (j : Journey), j.direction = "OUT" →
        s.daily_journeys = [] →
        stepFare s j = some { s with daily_total := s.daily_total + 5.00 }) ∧
    (∀ s : BillingState, s.daily_journeys ≠ [] →
        finalDailyTotal s =
          s.daily_total + 5.00 * (s.daily_journeys.length : ℚ) ∧
        round2 (5.00 * (s.daily_journeys.length : ℚ)) =
          5.00 * (s.daily_journeys.length : ℚ)) := by
  constructor
  · intro s j hd hemp
    refine stepFare_out_empty s hd ?_
    rw [hemp]
    rfl
  · intro s hne
    have hcents : isCents (5.00 * (s.daily_journeys.length : ℚ)) :=
      ⟨500 * s.daily_journeys.length, by push_cast; ring⟩
    have hfix := round2_fix hcents
    constructor
    · unfold finalDailyTotal
      rw [if_pos hne, hfix]
    · exact hfix

theorem claim_C3_witness :
    stepFare ⟨[], 1, 0, 0⟩ ⟨9, "OUT", ⟨0, 0⟩⟩ = some ⟨[], 1 + 5.00, 0, 0⟩ ∧
    finalDailyTotal ⟨[3, 4], 2, 0, 0⟩ =
      2 + 5.00 * ((([3, 4] : List ℤ).length : ℕ) : ℚ) :=
  ⟨claim_C3_missing_tap_fee.1 ⟨[], 1, 0, 0⟩ ⟨9, "OUT", ⟨0, 0⟩⟩ rfl rfl,
   (claim_C3_missing_tap_fee.2 ⟨[3, 4], 2, 0, 0⟩ (by decide)).1⟩

/-! ### Claims about unrecognized directions (C4) -/

/-- C4 (counterexample): the claim says an event whose direction is
neither `IN` nor `OUT` causes no state change at all.  In the code the
day-boundary rollover (lines 126-129) still runs for such an event: from
the reachable state with daily total 5.00 on day 0, the unrecognized
event `TAP` dated day 1 resets the daily total, folds 5.00 into the
monthly total and advances the current day. -/
theorem claim_C4_counterexample :
    processJourney ⟨[], 5.00, 0.00, 0⟩ ⟨2, "TAP", ⟨1, 0⟩⟩ =
      some ⟨[], 0.00, 5.00, 1⟩ ∧
    ((⟨[], 0.00, 5.00, 1⟩ : BillingState) ≠ ⟨[], 5.00, 0.00, 0⟩) := by
  constructor
  · have hstep : stepFare ⟨[], 5.00, 0.00, 0⟩ ⟨2, "TAP", ⟨1, 0⟩⟩ =
        some ⟨[], 5.00, 0.00, 0⟩ :=
      stepFare_skip _ (by decide) (by decide)
    rw [processJourney_eq _ _ hstep, rollover_lt (by decide)]
    have hmin : min (15.00 : ℚ) 5.00 = 5.00 := min_eq_right (by norm_num)
    simp only [Option.some.injEq, BillingState.mk.injEq, hmin]
    norm_num
  · intro h
    exact absurd (congrArg BillingState.cur_day h) (by decide)

/-- C4 (amended): an event whose direction is neither `IN` nor `OUT`
leaves the state unchanged in the `IN`/`OUT` dispatch (the pending-entry
stack, both totals and the current day are untouched there), but the
day-boundary rollover still runs afterwards: if the event's date is later
than the current day, the capped daily total is folded into the monthly
total, the daily total is reset and the current day advances; otherwise
the state is fully unchanged. -/
theorem claim_C4_skip_amended (s : BillingState) (j : Journey)
    (hd₁ : j.direction ≠ "IN") (hd₂ : j.direction ≠ "OUT") :
    stepFare s j = some s ∧
    processJourney s j = some (rollover s j) ∧
    (rollover s j).daily_journeys = s.daily_journeys ∧
    (¬ s.cur_day < j.timestamp.day → rollover s j = s) ∧
    (s.cur_day < j.timestamp.day →
      rollover s j =
        { s with cur_day := j.timestamp.day,
                 monthly_total := s.monthly_total + min 15.00 s.daily_total,
                 daily_total := 0.00 }) :=
  ⟨stepFare_skip s hd₁ hd₂,
   processJourney_eq s j (stepFare_skip s hd₁ hd₂),
   rollover_daily_journeys s j,
   fun h => rollover_ge h,
   fun h => rollover_lt h⟩

theorem claim_C4_skip_witness :
    ("XX" : String) ≠ "IN" ∧ ("XX" : String) ≠ "OUT" ∧
    stepFare ⟨[1], 3, 4, 0⟩ ⟨2, "XX", ⟨0, 5⟩⟩ = some ⟨[1], 3, 4, 0⟩ :=
  ⟨by decide, by decide,
   (claim_C4_skip_amended ⟨[1], 3, 4, 0⟩ ⟨2, "XX", ⟨0, 5⟩⟩
     (by decide) (by decide)).1⟩

/-! ### Claim C1: a single matched pair on one day -/

/-- C1: for a user whose journey sequence is exactly one matched pair —
`IN` at zone `a` then `OUT` at zone `b`, both on the same calendar day
and chronologically ordered, with `a, b ≥ 1` — the final bill is
`round(2.00 + additional_cost(a) + additional_cost(b), 2)` capped at
15.00 for that day. -/
theorem claim_C1_single_pair (a b : ℤ) (t₁ t₂ : Timestamp)
    (ha : 1 ≤ a) (hb : 1 ≤ b) (hday : t₁.day = t₂.day)
    (_hsec : t₁.sec ≤ t₂.sec) :
    ∃ ca cb, get_additional_zone_cost a = some ca ∧
      get_additional_zone_cost b = some cb ∧
      calculate_bill [⟨a, "IN", t₁⟩, ⟨b, "OUT", t₂⟩] =
        some (min 15.00 (round2 (2.00 + ca + cb))) := by
  obtain ⟨ca, hca⟩ := gaz_isSome ha
  obtain ⟨cb, hcb⟩ := gaz_isSome hb
  refine ⟨ca, cb, hca, hcb, ?_⟩
  obtain ⟨hfix, hcents, hlo, hhi⟩ := journey_cost_props hca hcb
  have hstep₁ : stepFare (initState ⟨a, "IN", t₁⟩) ⟨a, "IN", t₁⟩ =
      some ⟨[a], 0.00, 0.00, t₁.day⟩ := stepFare_in _ rfl
  have hroll₁ : rollover (⟨[a], 0.00, 0.00, t₁.day⟩ : BillingState)
      ⟨a, "IN", t₁⟩ = ⟨[a], 0.00, 0.00, t₁.day⟩ :=
    rollover_ge (lt_irrefl t₁.day)
  have h₁ : processJourney (initState ⟨a, "IN", t₁⟩) ⟨a, "IN", t₁⟩ =
      some ⟨[a], 0.00, 0.00, t₁.day⟩ := by
    rw [processJourney_eq _ _ hstep₁, hroll₁]
  have hstep₂ : stepFare (⟨[a], 0.00, 0.00, t₁.day⟩ : BillingState)
      ⟨b, "OUT", t₂⟩ =
      some ⟨[], 0.00 + round2 (2.0 + ca + cb), 0.00, t₁.day⟩ :=
    stepFare_out_pop _ rfl rfl hca hcb
  have hroll₂ : rollover
      (⟨[], 0.00 + round2 (2.0 + ca + cb), 0.00, t₁.day⟩ : BillingState)
      ⟨b, "OUT", t₂⟩ =
      ⟨[], 0.00 + round2 (2.0 + ca + cb), 0.00, t₁.day⟩ :=
    rollover_ge (show ¬ t₁.day < t₂.day by omega)
  have h₂ : processJourney (⟨[a], 0.00, 0.00, t₁.day⟩ : BillingState)
      ⟨b, "OUT", t₂⟩ =
      some ⟨[], 0.00 + round2 (2.0 + ca + cb), 0.00, t₁.day⟩ := by
    rw [processJourney_eq _ _ hstep₂, hroll₂]
  have hfold : List.foldlM processJourney (initState ⟨a, "IN", t₁⟩)
      [⟨a, "IN", t₁⟩, ⟨b, "OUT", t₂⟩] =
      some ⟨[], 0.00 + round2 (2.0 + ca + cb), 0.00, t₁.day⟩ := by
    rw [List.foldlM_cons, h₁]
    show List.foldlM processJourney (⟨[a], 0.00, 0.00, t₁.day⟩ : BillingState)
      [⟨b, "OUT", t₂⟩] = _
    rw [List.foldlM_cons, h₂]
    rfl
  have hbill : calculate_bill [⟨a, "IN", t₁⟩, ⟨b, "OUT", t₂⟩] =
      some (finishUser ⟨[], 0.00 + round2 (2.0 + ca + cb), 0.00, t₁.day⟩) := by
    show (List.foldlM processJourney (initState ⟨a, "IN", t₁⟩)
      [⟨a, "IN", t₁⟩, ⟨b, "OUT", t₂⟩]).map finishUser = _
    rw [hfold]
    rfl
  have hfin : finishUser
      (⟨[], 0.00 + round2 (2.0 + ca + cb), 0.00, t₁.day⟩ : BillingState) =
      2.0 + ca + cb := by
    show min 100.00
      ((0.00 : ℚ) + round2 (min 15.00 (0.00 + round2 (2.0 + ca + cb)))) =
      2.0 + ca + cb
    have e₁ : (0.00 : ℚ) + (2.0 + ca + cb) = 2.0 + ca + cb := by norm_num
    have hmin15 : min (15.00 : ℚ) (2.0 + ca + cb) = 2.0 + ca + cb :=
      min_eq_right (by linarith)
    rw [hfix, e₁, hmin15, round2_fix hcents, e₁]
    exact min_eq_right (by linarith)
  have hRHS : min 15.00 (round2 (2.00 + ca + cb)) = 2.0 + ca + cb := by
    have e₂ : (2.00 : ℚ) + ca + cb = 2.0 + ca + cb := by norm_num
    rw [e₂, hfix]
    exact min_eq_right (by linarith)
  rw [hbill, hfin, hRHS]

theorem claim_C1_witness :
    (1 ≤ (1 : ℤ)) ∧ (1 ≤ (3 : ℤ)) ∧
    ((⟨0, 100⟩ : Timestamp).day = (⟨0, 200⟩ : Timestamp).day) ∧
    ((⟨0, 100⟩ : Timestamp).sec ≤ (⟨0, 200⟩ : Timestamp).sec) ∧
    (∃ ca cb, get_additional_zone_cost 1 = some ca ∧
      get_additional_zone_cost 3 = some cb ∧
      calculate_bill [⟨1, "IN", ⟨0, 100⟩⟩, ⟨3, "OUT", ⟨0, 200⟩⟩] =
        some (min 15.00 (round2 (2.00 + ca + cb)))) :=
  ⟨by decide, by decide, by decide, by decide,
   claim_C1_single_pair 1 3 ⟨0, 100⟩ ⟨0, 200⟩
     (by decide) (by decide) (by decide) (by decide)⟩

/-! ### Further preservation lemmas -/

theorem calculate_bill_cons (j₀ : Journey) (rest : List Journey) :
    calculate_bill (j₀ :: rest) =
      ((j₀ :: rest).foldlM processJourney (initState j₀)).map finishUser := rfl

theorem stepFare_monthly {s s' : BillingState} {j : Journey}
    (h : stepFare s j = some s') : s'.monthly_total = s.monthly_total := by
  rcases stepFare_cases h with ⟨_, rfl⟩ | ⟨_, _, rfl⟩ |
    ⟨_, e, c₁, c₂, _, _, _, rfl⟩ | ⟨_, _, rfl⟩ <;> rfl

theorem stepFare_cents {s s' : BillingState} {j : Journey}
    (h : stepFare s j = some s') (hs : isCents s.daily_total) :
    isCents s'.daily_total := by
  rcases stepFare_cases h with ⟨_, rfl⟩ | ⟨_, _, rfl⟩ |
    ⟨_, e, c₁, c₂, _, _, _, rfl⟩ | ⟨_, _, rfl⟩
  · exact hs
  · exact isCents_add hs isCents_five
  · exact isCents_add hs (isCents_round2 _)
  · exact hs

theorem rollover_cents {s : BillingState} (j : Journey)
    (hs : isCents s.daily_total) : isCents (rollover s j).daily_total := by
  unfold rollover
  split_ifs
  · exact ⟨0, by norm_num⟩
  · exact hs

theorem processJourney_cents {s s' : BillingState} {j : Journey}
    (h : processJourney s j = some s') (hs : isCents s.daily_total) :
    isCents s'.daily_total := by
  unfold processJourney at h
  rcases hf : stepFare s j with _ | s₁ <;> rw [hf] at h
  · exact absurd h (by simp)
  · have h' : rollover s₁ j = s' := by
      simpa using h
    exact h' ▸ rollover_cents j (stepFare_cents hf hs)

theorem finalDailyTotal_cents {s : BillingState}
    (hs : isCents s.daily_total) : isCents (finalDailyTotal s) := by
  unfold finalDailyTotal
  split_ifs
  · exact isCents_add hs (isCents_round2 _)
  · exact hs

theorem finalDailyTotal_nonneg {s : BillingState}
    (hd : 0 ≤ s.daily_total) : 0 ≤ finalDailyTotal s := by
  unfold finalDailyTotal
  split_ifs
  · have hc : isCents (5.00 * (s.daily_journeys.length : ℚ)) :=
      ⟨500 * s.daily_journeys.length, by push_cast; ring⟩
    rw [round2_fix hc]
    positivity
  · exact hd

theorem finishUser_range {s : BillingState} (hs : Inv s) :
    0 ≤ finishUser s ∧ finishUser s ≤ 100.00 := by
  obtain ⟨hc, hd, hm⟩ := hs
  unfold finishUser
  have hdt := finalDailyTotal_nonneg hd
  have hmin : (0 : ℚ) ≤ min 15.00 (finalDailyTotal s) := le_min (by norm_num) hdt
  rw [round2_fix (isCents_min15 (finalDailyTotal_cents hc))]
  constructor
  · exact le_min (by norm_num) (by linarith)
  · exact min_le_left _ _

/-! ### Claim C2: the daily and monthly caps -/

/-- C2: every amount folded into the monthly total — at a day-boundary
rollover and at the final flush — equals `min(15.00, daily_total)` at
that moment (the rounding of the flush amount is exact) and hence is at
most 15.00; the final bill equals `min(100.00, monthly_total)` and hence
never exceeds 100.00, with no assumption on how large the raw daily
totals are. -/
theorem claim_C2_caps :
    (∀ (s : BillingState) (j : Journey) (s' : BillingState),
        processJourney s j = some s' →
        s'.monthly_total = s.monthly_total ∨
        ∃ mid, stepFare s j = some mid ∧
          s'.monthly_total = s.monthly_total + min 15.00 mid.daily_total ∧
          min 15.00 mid.daily_total ≤ 15.00) ∧
    (∀ (j₀ : Journey) (rest : List Journey) (b : ℚ),
        calculate_bill (j₀ :: rest) = some b →
        ∃ fin, (j₀ :: rest).foldlM processJourney (initState j₀) = some fin ∧
          round2 (min 15.00 (finalDailyTotal fin)) =
            min 15.00 (finalDailyTotal fin) ∧
          min 15.00 (finalDailyTotal fin) ≤ 15.00 ∧
          b = min 100.00
            (fin.monthly_total + min 15.00 (finalDailyTotal fin)) ∧
          b ≤ 100.00) := by
  constructor
  · intro s j s' h
    unfold processJourney at h
    rcases hf : stepFare s j with _ | mid <;> rw [hf] at h
    · exact absurd h (by simp)
    · have h' : rollover mid j = s' := by
        simpa using h
      have hmm := stepFare_monthly hf
      unfold rollover at h'
      split_ifs at h'
      · refine Or.inr ⟨mid, rfl, ?_, min_le_left _ _⟩
        rw [← h', ← hmm]
      · rw [← h', ← hmm]
        exact Or.inl rfl
  · intro j₀ rest b h
    rw [calculate_bill_cons] at h
    rcases hfold : (j₀ :: rest).foldlM processJourney (initState j₀) with _ | fin <;>
      rw [hfold] at h
    · exact absurd h (by simp)
    · have hb : finishUser fin = b := by
        simpa using h
      have hcents : isCents fin.daily_total := by
        refine foldlM_pres (P := fun s => isCents s.daily_total)
          (fun s j s' hP hstep => processJourney_cents hstep hP)
          (j₀ :: rest) (initState j₀) fin ?_ hfold
        exact ⟨0, by norm_num [initState]⟩
      have hfixmin :=
        round2_fix (isCents_min15 (finalDailyTotal_cents hcents))
      refine ⟨fin, rfl, hfixmin, min_le_left _ _, ?_, ?_⟩
      · rw [← hb]
        unfold finishUser
        rw [hfixmin]
      · rw [← hb]
        unfold finishUser
        exact min_le_left _ _

theorem claim_C2_witness :
    (processJourney ⟨[], 3.00, 7.00, 0⟩ ⟨1, "XYZ", ⟨1, 0⟩⟩ =
      some ⟨[], 0.00, 7.00 + min 15.00 3.00, 1⟩) ∧
    ((⟨[], 0.00, 7.00 + min 15.00 3.00, 1⟩ : BillingState).monthly_total =
        (⟨[], 3.00, 7.00, 0⟩ : BillingState).monthly_total ∨
      ∃ mid, stepFare ⟨[], 3.00, 7.00, 0⟩ ⟨1, "XYZ", ⟨1, 0⟩⟩ = some mid ∧
        (⟨[], 0.00, 7.00 + min 15.00 3.00, 1⟩ :
            BillingState).monthly_total =
          (⟨[], 3.00, 7.00, 0⟩ : BillingState).monthly_total +
            min 15.00 mid.daily_total ∧
        min 15.00 mid.daily_total ≤ 15.00) ∧
    calculate_bill [⟨1, "IN", ⟨0, 0⟩⟩] = some 5.00 ∧
    (∃ fin, ([⟨1, "IN", ⟨0, 0⟩⟩] : List Journey).foldlM processJourney
        (initState ⟨1, "IN", ⟨0, 0⟩⟩) = some fin ∧
      round2 (min 15.00 (finalDailyTotal fin)) =
        min 15.00 (finalDailyTotal fin) ∧
      min 15.00 (finalDailyTotal fin) ≤ 15.00 ∧
      (5.00 : ℚ) = min 100.00
        (fin.monthly_total + min 15.00 (finalDailyTotal fin)) ∧
      (5.00 : ℚ) ≤ 100.00) := by
  have hstep : stepFare (⟨[], 3.00, 7.00, 0⟩ : BillingState)
      ⟨1, "XYZ", ⟨1, 0⟩⟩ = some ⟨[], 3.00, 7.00, 0⟩ :=
    stepFare_skip _ (by decide) (by decide)
  have hp : processJourney (⟨[], 3.00, 7.00, 0⟩ : BillingState)
      ⟨1, "XYZ", ⟨1, 0⟩⟩ = some ⟨[], 0.00, 7.00 + min 15.00 3.00, 1⟩ := by
    rw [processJourney_eq _ _ hstep, rollover_lt (by decide)]
  have hin : stepFare (initState ⟨1, "IN", ⟨0, 0⟩⟩) ⟨1, "IN", ⟨0, 0⟩⟩ =
      some ⟨[1], 0.00, 0.00, 0⟩ := stepFare_in _ rfl
  have h₁ : processJourney (initState ⟨1, "IN", ⟨0, 0⟩⟩) ⟨1, "IN", ⟨0, 0⟩⟩ =
      some ⟨[1], 0.00, 0.00, 0⟩ := by
    rw [processJourney_eq _ _ hin, rollover_ge (lt_irrefl (0 : ℤ))]
  have hfold : ([⟨1, "IN", ⟨0, 0⟩⟩] : List Journey).foldlM processJourney
      (initState ⟨1, "IN", ⟨0, 0⟩⟩) = some ⟨[1], 0.00, 0.00, 0⟩ := by
    rw [List.foldlM_cons, h₁]
    rfl
  have hlen : round2 (5.00 * (([1] : List ℤ).length : ℚ)) =
      5.00 * (([1] : List ℤ).length : ℚ) :=
    round2_fix ⟨500 * ([1] : List ℤ).length, by norm_num⟩
  have hfin : finishUser (⟨[1], 0.00, 0.00, 0⟩ : BillingState) = 5.00 := by
    show min 100.00 ((0.00 : ℚ) +
      round2 (min 15.00 (0.00 + round2 (5.00 * (([1] : List ℤ).length : ℚ)))))
      = 5.00
    rw [hlen]
    have e₁ : (0.00 : ℚ) + 5.00 * (([1] : List ℤ).length : ℚ) = 5.00 := by
      norm_num
    rw [e₁, min_eq_right (show (5.00 : ℚ) ≤ 15.00 by norm_num),
      round2_fix isCents_five]
    have e₂ : (0.00 : ℚ) + 5.00 = 5.00 := by norm_num
    rw [e₂]
    exact min_eq_right (by norm_num)
  have hcb : calculate_bill [⟨1, "IN", ⟨0, 0⟩⟩] = some 5.00 := by
    rw [calculate_bill_cons, hfold]
    show some (finishUser ⟨[1], 0.00, 0.00, 0⟩) = some 5.00
    rw [hfin]
  exact ⟨hp, claim_C2_caps.1 _ _ _ hp, hcb, claim_C2_caps.2 _ _ _ hcb⟩

/-! ### Claim C10: bills are non-negative and at most 100 -/

/-- C10 (implicit): every increment to the daily total is non-negative,
every step can only increase the monthly total, and for every user with
a non-empty journey sequence of valid zones (`≥ 1`) the computed bill
exists and lies in the closed interval [0.00, 100.00]. -/
theorem claim_C10_bill_range :
    (∀ (s : BillingState) (j : Journey) (s' : BillingState),
        stepFare s j = some s' → s.daily_total ≤ s'.daily_total) ∧
    (∀ (s : BillingState) (j : Journey) (s' : BillingState),
        0 ≤ s.daily_total → 0 ≤ s.monthly_total →
        processJourney s j = some s' →
        0 ≤ s'.daily_total ∧ s.monthly_total ≤ s'.monthly_total) ∧
    (∀ js : List Journey, js ≠ [] → (∀ j ∈ js, 1 ≤ j.zone) →
        ∃ b, calculate_bill js = some b ∧ 0 ≤ b ∧ b ≤ 100.00) := by
  refine ⟨?_, ?_, ?_⟩
  · intro s j s' h
    rcases stepFare_cases h with ⟨_, rfl⟩ | ⟨_, _, rfl⟩ |
      ⟨_, e, c₁, c₂, _, hc₁, hc₂, rfl⟩ | ⟨_, _, rfl⟩
    · exact le_refl _
    · show s.daily_total ≤ s.daily_total + 5.00
      linarith
    · obtain ⟨hfix, _, hlo, _⟩ := journey_cost_props hc₁ hc₂
      show s.daily_total ≤ s.daily_total + round2 (2.0 + c₁ + c₂)
      rw [hfix]
      linarith
    · exact le_refl _
  · intro s j s' hd hm h
    unfold processJourney at h
    rcases hf : stepFare s j with _ | mid <;> rw [hf] at h
    · exact absurd h (by simp)
    · have h' : rollover mid j = s' := by
        simpa using h
      have hdm : s.daily_total ≤ mid.daily_total := by
        rcases stepFare_cases hf with ⟨_, rfl⟩ | ⟨_, _, rfl⟩ |
          ⟨_, e, c₁, c₂, _, hc₁, hc₂, rfl⟩ | ⟨_, _, rfl⟩
        · exact le_refl _
        · show s.daily_total ≤ s.daily_total + 5.00
          linarith
        · obtain ⟨hfix, _, hlo, _⟩ := journey_cost_props hc₁ hc₂
          show s.daily_total ≤ s.daily_total + round2 (2.0 + c₁ + c₂)
          rw [hfix]
          linarith
        · exact le_refl _
      have hmm := stepFare_monthly hf
      unfold rollover at h'
      split_ifs at h'
      · rw [← h']
        constructor
        · show (0 : ℚ) ≤ 0.00
          norm_num
        · show s.monthly_total ≤ mid.monthly_total + min 15.00 mid.daily_total
          have : (0 : ℚ) ≤ min 15.00 mid.daily_total :=
            le_min (by norm_num) (by linarith)
          rw [hmm]
          linarith
      · rw [← h']
        exact ⟨by linarith, by rw [hmm]⟩
  · rintro (_ | ⟨j₀, rest⟩) hne hz
    · exact absurd rfl hne
    obtain ⟨fin, hfold, _⟩ := foldlM_total (j₀ :: rest) (initState j₀) hz
      (fun z hzmem => absurd hzmem (List.not_mem_nil z))
    have hInv : Inv fin := by
      refine foldlM_pres (P := Inv)
        (fun s j s' hP hstep => (processJourney_inv hstep hP).1)
        (j₀ :: rest) (initState j₀) fin ?_ hfold
      exact ⟨⟨0, by norm_num [initState]⟩, by norm_num [initState],
        by norm_num [initState]⟩
    obtain ⟨h0, h100⟩ := finishUser_range hInv
    refine ⟨finishUser fin, ?_, h0, h100⟩
    rw [calculate_bill_cons, hfold]
    rfl

theorem claim_C10_witness :
    (([⟨1, "OUT", ⟨0, 0⟩⟩] : List Journey) ≠ []) ∧
    (∀ j ∈ ([⟨1, "OUT", ⟨0, 0⟩⟩] : List Journey), 1 ≤ j.zone) ∧
    (∃ b, calculate_bill [⟨1, "OUT", ⟨0, 0⟩⟩] = some b ∧
      0 ≤ b ∧ b ≤ 100.00) :=
  ⟨by decide, by decide,
   claim_C10_bill_range.2.2 [⟨1, "OUT", ⟨0, 0⟩⟩] (by decide) (by decide)⟩

/-! ### Claim C5: loading the zone map -/

/-- The value of a non-empty all-digit character list, or `none`
otherwise (helper for `pythonInt`). -/
def digitsVal (cs : List Char) : Option ℕ :=
  match cs with
  | [] => none
  | _ =>
    cs.foldlM
      (fun acc c =>
        if c.isDigit then some (acc * 10 + (c.toNat - 48)) else none) 0

/-- Model of the Python builtin `int(field)` as called on a CSV field
(line 69): an optional sign followed by one or more decimal digits
parses to the signed value, anything else raises `ValueError` (`none`). -/
def pythonInt (s : String) : Option ℤ :=
  match s.data with
  | '-' :: rest => (digitsVal rest).map (fun n => -(n : ℤ))
  | '+' :: rest => (digitsVal rest).map (fun n => (n : ℤ))
  | cs => (digitsVal cs).map (fun n => (n : ℤ))

/-- Python dict assignment `d[k] = v` on an association list: overwrite
the binding if the key is present, else append it. -/
def dictInsert (m : List (String × ℤ)) (k : String) (v : ℤ) :
    List (String × ℤ) :=
  match m with
  | [] => [(k, v)]
  | (k', v') :: rest =>
    if k' = k then (k, v) :: rest else (k', v') :: dictInsert rest k v

/-- One iteration of the `for station, zone in reader` loop body
(lines 68-69): a row must unpack into exactly two fields (otherwise the
tuple unpacking raises) and its zone field is parsed with `int` (which
raises on non-integer text); the parsed integer is stored unchecked. -/
def zoneRowStep (acc : List (String × ℤ)) (row : List String) :
    Option (List (String × ℤ)) :=
  match row with
  | [station, zone] =>
    (pythonInt zone).map (fun z => dictInsert acc station z)
  | _ => none

/-- Python method `read_zone_map` (lines 59-69) on the CSV rows after
the skipped header. -/
def read_zone_map (rows : List (List String)) :
    Option (List (String × ℤ)) :=
  rows.foldlM zoneRowStep []

/-- C5 (counterexample): the claim says a row whose zone field parses to
zero or a negative integer makes the load fail; in the code (line 69)
`int(zone)` succeeds on `"0"` and `"-3"` and the values are stored in
the station-to-zone mapping, so the load succeeds. -/
theorem claim_C5_counterexample :
    read_zone_map [["stationA", "0"], ["stationB", "-3"]] =
      some [("stationA", 0), ("stationB", -3)] := by
  decide

/-- C5 (amended): loading the zone map fails exactly on rows that do not
consist of two fields or whose zone field is not parseable as an
integer; a row whose zone field parses to any integer — zero and
negative included — is accepted and stored, with no positivity check. -/
theorem claim_C5_zone_map_amended :
    (∀ (pre : List (List String)) (st zs : String) (z : ℤ)
        (m : List (String × ℤ)),
        pythonInt zs = some z → read_zone_map pre = some m →
        read_zone_map (pre ++ [[st, zs]]) = some (dictInsert m st z)) ∧
    (∀ (pre : List (List String)) (st zs : String),
        pythonInt zs = none →
        read_zone_map (pre ++ [[st, zs]]) = none) ∧
    (∀ (pre : List (List String)) (row : List String),
        (∀ st zs, row ≠ [st, zs]) →
        read_zone_map (pre ++ [row]) = none) := by
  refine ⟨?_, ?_, ?_⟩
  · intro pre st zs z m hz hpre
    unfold read_zone_map at hpre ⊢
    rw [List.foldlM_append, hpre]
    show List.foldlM zoneRowStep m [[st, zs]] = some (dictInsert m st z)
    rw [List.foldlM_cons]
    show ((pythonInt zs).map fun z' => dictInsert m st z') >>=
      (fun acc => List.foldlM zoneRowStep acc []) = some (dictInsert m st z)
    rw [hz]
    rfl
  · intro pre st zs hz
    unfold read_zone_map
    rw [List.foldlM_append]
    rcases hpre : List.foldlM zoneRowStep [] pre with _ | m
    · rfl
    · show List.foldlM zoneRowStep m [[st, zs]] = none
      rw [List.foldlM_cons]
      show ((pythonInt zs).map fun z' => dictInsert m st z') >>=
        (fun acc => List.foldlM zoneRowStep acc []) = none
      rw [hz]
      rfl
  · intro pre row hrow
    unfold read_zone_map
    rw [List.foldlM_append]
    rcases hpre : List.foldlM zoneRowStep [] pre with _ | m
    · rfl
    · show List.foldlM zoneRowStep m [row] = none
      rw [List.foldlM_cons]
      rcases row with _ | ⟨a, _ | ⟨b, _ | ⟨c, tl⟩⟩⟩
      · rfl
      · rfl
      · exact absurd rfl (hrow a b)
      · rfl

theorem claim_C5_witness :
    pythonInt "0" = some 0 ∧
    read_zone_map [["stationC", "0"]] = some [("stationC", 0)] ∧
    pythonInt "x7" = none ∧
    read_zone_map [["stationC", "x7"]] = none :=
  ⟨by decide,
   claim_C5_zone_map_amended.1 [] "stationC" "0" 0 [] (by decide) rfl,
   by decide,
   claim_C5_zone_map_amended.2.1 [] "stationC" "x7" (by decide)⟩

/-! ### Claim C8: the bill report -/

/-- Decimal digits of `n`, most significant first (helper for the model
of the Python format specifier `".2f"`). -/
def natDigits (n : ℕ) : List Char :=
  if h : n < 10 then [Char.ofNat (48 + n)]
  else natDigits (n / 10) ++ [Char.ofNat (48 + n % 10)]
termination_by n
decreasing_by exact Nat.div_lt_self (by omega) (by omega)

/-- A two-digit rendering of `m < 100` (helper for `format2f`). -/
def pad2 (m : ℕ) : String :=
  String.mk ((if m < 10 then ['0'] else []) ++ natDigits m)

/-- Model of `format(bill_amount, ".2f")` (line 151): round the value to
a whole number of hundredths (half to even) and print it with exactly
two digits after the decimal point. -/
def format2f (q : ℚ) : String :=
  ((if roundHalfEven (q * 100) < 0 then "-" else "") ++
      String.mk (natDigits ((roundHalfEven (q * 100)).natAbs / 100))) ++
    "." ++ pad2 ((roundHalfEven (q * 100)).natAbs % 100)

/-- Insert a user-bill pair into a list sorted by user id. -/
def insertPair (p : String × ℚ) :
    List (String × ℚ) → List (String × ℚ)
  | [] => [p]
  | q :: rest => if p.1 < q.1 then p :: q :: rest else q :: insertPair p rest

/-- Python call `sorted(self.user_bills.items())` (line 148): the items of a dict
have distinct keys, so sorting the pairs orders them by user id
(lexicographic string order). -/
def sortPairs : List (String × ℚ) → List (String × ℚ)
  | [] => []
  | p :: rest => insertPair p (sortPairs rest)

/-- Python method `write_billing_output` (lines 140-152) as the list of CSV lines it
writes: one `user_id,amount` line per user, in ascending order of user
id, amounts formatted with `".2f"`. -/
def write_billing_output (user_bills : List (String × ℚ)) : List String :=
  (sortPairs user_bills).map (fun p => p.1 ++ "," ++ format2f p.2)

theorem isDigit_ofNat {k : ℕ} (h : k < 10) :
    (Char.ofNat (48 + k)).isDigit = true := by
  interval_cases k <;> decide

theorem natDigits_digits (n : ℕ) : ∀ c ∈ natDigits n, c.isDigit = true := by
  induction n using Nat.strong_induction_on with
  | _ n ih =>
    unfold natDigits
    split_ifs with h
    · intro c hc
      rw [List.mem_singleton] at hc
      rw [hc]
      exact isDigit_ofNat h
    · intro c hc
      rcases List.mem_append.mp hc with h₁ | h₂
      · exact ih (n / 10) (Nat.div_lt_self (by omega) (by omega)) c h₁
      · rw [List.mem_singleton] at h₂
        rw [h₂]
        exact isDigit_ofNat (Nat.mod_lt n (by omega))

theorem natDigits_len₁ {n : ℕ} (h : n < 10) : (natDigits n).length = 1 := by
  unfold natDigits
  rw [dif_pos h]
  rfl

theorem natDigits_len₂ {n : ℕ} (h₁ : 10 ≤ n) (h₂ : n < 100) :
    (natDigits n).length = 2 := by
  unfold natDigits
  rw [dif_neg (by omega), List.length_append,
    natDigits_len₁ (show n / 10 < 10 by omega)]
  rfl

theorem pad2_length {m : ℕ} (hm : m < 100) : (pad2 m).length = 2 := by
  show ((if m < 10 then ['0'] else []) ++ natDigits m).length = 2
  split_ifs with h
  · rw [List.length_append, natDigits_len₁ h]
    rfl
  · rw [List.length_append, natDigits_len₂ (by omega) hm]
    rfl

theorem pad2_digits {m : ℕ} : ∀ c ∈ (pad2 m).data, c.isDigit = true := by
  show ∀ c ∈ (if m < 10 then ['0'] else []) ++ natDigits m, c.isDigit = true
  intro c hc
  rcases List.mem_append.mp hc with h₁ | h₂
  · split_ifs at h₁ with h
    · rw [List.mem_singleton] at h₁
      rw [h₁]
      decide
    · exact absurd h₁ (List.not_mem_nil c)
  · exact natDigits_digits m c h₂

theorem not_dot_of_digits {cs : List Char}
    (h : ∀ c ∈ cs, c.isDigit = true) : '.' ∉ cs :=
  fun hmem => absurd (h _ hmem) (by decide)

theorem insertPair_nil (p : String × ℚ) : insertPair p [] = [p] := rfl

theorem insertPair_cons (p q : String × ℚ) (rest : List (String × ℚ)) :
    insertPair p (q :: rest) =
      if p.1 < q.1 then p :: q :: rest else q :: insertPair p rest := rfl

theorem mem_insertPair {x p : String × ℚ} :
    ∀ {l : List (String × ℚ)}, x ∈ insertPair p l → x = p ∨ x ∈ l := by
  intro l
  induction l with
  | nil =>
    intro h
    rw [insertPair_nil, List.mem_singleton] at h
    exact Or.inl h
  | cons q rest ih =>
    intro h
    rw [insertPair_cons] at h
    by_cases hlt : p.1 < q.1
    · rw [if_pos hlt] at h
      rcases List.mem_cons.mp h with h | h
      · exact Or.inl h
      · exact Or.inr h
    · rw [if_neg hlt] at h
      rcases List.mem_cons.mp h with h | h
      · exact Or.inr (h ▸ List.mem_cons_self q rest)
      · rcases ih h with h | h
        · exact Or.inl h
        · exact Or.inr (List.mem_cons_of_mem q h)

theorem insertPair_perm (p : String × ℚ) :
    ∀ l : List (String × ℚ), (insertPair p l).Perm (p :: l) := by
  intro l
  induction l with
  | nil => exact List.Perm.refl _
  | cons q rest ih =>
    show (if p.1 < q.1 then p :: q :: rest
      else q :: insertPair p rest).Perm (p :: q :: rest)
    split_ifs
    · exact List.Perm.refl _
    · exact (ih.cons q).trans (List.Perm.swap p q rest)

theorem sortPairs_perm (l : List (String × ℚ)) : (sortPairs l).Perm l := by
  induction l with
  | nil => exact List.Perm.refl _
  | cons p rest ih =>
    show (insertPair p (sortPairs rest)).Perm (p :: rest)
    exact (insertPair_perm p (sortPairs rest)).trans (ih.cons p)

theorem insertPair_sorted {p : String × ℚ} :
    ∀ {l : List (String × ℚ)},
      List.Pairwise (fun a b => a.1 ≤ b.1) l →
      List.Pairwise (fun a b => a.1 ≤ b.1) (insertPair p l) := by
  intro l
  induction l with
  | nil =>
    intro _
    exact List.pairwise_singleton _ p
  | cons q rest ih =>
    intro hl
    rw [List.pairwise_cons] at hl
    obtain ⟨hq, hrest⟩ := hl
    show List.Pairwise _
      (if p.1 < q.1 then p :: q :: rest else q :: insertPair p rest)
    split_ifs with h
    · rw [List.pairwise_cons]
      constructor
      · intro b hb
        rcases List.mem_cons.mp hb with rfl | hb
        · exact le_of_lt h
        · exact le_trans (le_of_lt h) (hq b hb)
      · rw [List.pairwise_cons]
        exact ⟨hq, hrest⟩
    · rw [List.pairwise_cons]
      refine ⟨?_, ih hrest⟩
      intro b hb
      rcases mem_insertPair hb with rfl | hb
      · exact le_of_not_lt h
      · exact hq b hb

theorem sortPairs_sorted (l : List (String × ℚ)) :
    List.Pairwise (fun a b => a.1 ≤ b.1) (sortPairs l) := by
  induction l with
  | nil => exact List.Pairwise.nil
  | cons p rest ih =>
    show List.Pairwise _ (insertPair p (sortPairs rest))
    exact insertPair_sorted ih

/-- C8: the bill report has one line per billed user (the sorted pair
list is a permutation of the user-bill map), the lines are in ascending
order of user identifier (lexicographic string order), each line is
`user_id,amount`, and every formatted amount has exactly two fraction
digits after its (unique) decimal point. -/
theorem claim_C8_report_format (user_bills : List (String × ℚ)) :
    (sortPairs user_bills).Perm user_bills ∧
    List.Pairwise (fun a b => a.1 ≤ b.1) (sortPairs user_bills) ∧
    write_billing_output user_bills =
      (sortPairs user_bills).map (fun p => p.1 ++ "," ++ format2f p.2) ∧
    (∀ q : ℚ, ∃ intPart frac : String,
      format2f q = intPart ++ "." ++ frac ∧
      frac.length = 2 ∧ (∀ c ∈ frac.data, c.isDigit = true) ∧
      '.' ∉ intPart.data ∧ '.' ∉ frac.data) := by
  refine ⟨sortPairs_perm _, sortPairs_sorted _, rfl, ?_⟩
  intro q
  refine ⟨(if roundHalfEven (q * 100) < 0 then "-" else "") ++
      String.mk (natDigits ((roundHalfEven (q * 100)).natAbs / 100)),
    pad2 ((roundHalfEven (q * 100)).natAbs % 100),
    rfl, pad2_length (Nat.mod_lt _ (by omega)), pad2_digits, ?_,
    not_dot_of_digits pad2_digits⟩
  split_ifs with h
  · show ('.' : Char) ∉
      '-' :: natDigits ((roundHalfEven (q * 100)).natAbs / 100)
    intro hmem
    rcases List.mem_cons.mp hmem with hd | hd
    · exact absurd hd (by decide)
    · exact not_dot_of_digits (natDigits_digits _) hd
  · exact not_dot_of_digits (natDigits_digits _)

theorem claim_C8_witness :
    (sortPairs [("b", 2.00), ("a", 3.00)]).Perm [("b", 2.00), ("a", 3.00)] ∧
    List.Pairwise (fun a b => a.1 ≤ b.1)
      (sortPairs [("b", 2.00), ("a", 3.00)]) ∧
    write_billing_output [("b", 2.00), ("a", 3.00)] =
      (sortPairs [("b", 2.00), ("a", 3.00)]).map
        (fun p => p.1 ++ "," ++ format2f p.2) ∧
    (∀ q : ℚ, ∃ intPart frac : String,
      format2f q = intPart ++ "." ++ frac ∧
      frac.length = 2 ∧ (∀ c ∈ frac.data, c.isDigit = true) ∧
      '.' ∉ intPart.data ∧ '.' ∉ frac.data) :=
  claim_C8_report_format [("b", 2.00), ("a", 3.00)]

end MassTransit
